import Mathlib

/-!
Verification of the `sparko_graphql` typed GraphQL client.

The development shallowly embeds the query/parameter composition engine of
the crate (`src/traits.rs`), the response-handling pipeline of the client
(`src/lib.rs`), and the `Int` scalar codec (`src/types/int.rs`).  Rust
strings are modelled by Lean `String`, JSON values by the inductive `Json`
below, fallible operations by `Except`, and the mutable buffer types by
explicit state passing.
-/

namespace SparkoGraphQL

/-- JSON values as exchanged on the wire.  Numbers are modelled as
mathematical integers: every behaviour verified here inspects only
integral JSON numbers (`serde_json` routes an integral number to
`visit_u64`/`visit_i64`, and any number that does not fit those visitors
is rejected by the visitors the crate implements). -/
inductive Json where
  | null : Json
  | bool (b : Bool) : Json
  | num (n : Int) : Json
  | str (s : String) : Json
  | arr (elems : List Json) : Json
  | obj (fields : List (String × Json)) : Json

/-- The `ParamBuffer` (src/traits.rs): a single string accumulating rendered
parameter fragments for one syntactic level. -/
structure ParamBuffer where
  buf : String
deriving DecidableEq

/-- The `ParamBuffer::new`. -/
def ParamBuffer.new : ParamBuffer := { buf := "" }

/-- The `ParamBuffer::push`: appends `"("` when the buffer is empty and
`", "` otherwise, then the fragment itself. -/
def ParamBuffer.push (pb : ParamBuffer) (s : String) : ParamBuffer :=
  { buf := (pb.buf ++ (if pb.buf.length = 0 then "(" else ", ")) ++ s }

/-- The `ParamBuffer::consume`: closes the list with `")"` when anything was
pushed, and yields the accumulated string. -/
def ParamBuffer.consume (pb : ParamBuffer) : String :=
  if pb.buf.length > 0 then pb.buf ++ ")" else pb.buf

/-- The `ParamBuffer::push_formal`: `push("$")` followed by appending
`prefix`, `param_name`, `": "` and `param_type`. -/
def ParamBuffer.pushFormal (pb : ParamBuffer) (p paramName paramType : String) : ParamBuffer :=
  { buf := (pb.push "$").buf ++ p ++ paramName ++ ": " ++ paramType }

/-- The `ParamBuffer::push_actual`: `push(param_name)` followed by appending
`": $"`, `prefix` and `param_name`. -/
def ParamBuffer.pushActual (pb : ParamBuffer) (p paramName : String) : ParamBuffer :=
  { buf := (pb.push paramName).buf ++ ": $" ++ p ++ paramName }

/-- The `GraphQL::prefix` (src/traits.rs lines 103-115): the prefix-join
discipline.  Named `prefixJoin` here. -/
def GraphQL.prefixJoin (a b : String) : String :=
  if b.length = 0 then a
  else if a.length = 0 then b ++ "_"
  else (a ++ b) ++ "_"

theorem string_length_eq_zero_iff {s : String} : s.length = 0 ↔ s = "" := by
  cases s with
  | mk data =>
    constructor
    · intro h
      have hd : data = [] := List.length_eq_zero.mp h
      subst hd
      rfl
    · intro h
      rw [h]
      rfl

/-- C3: the prefix-join returns `parent` unchanged when `segment` is
empty; otherwise it returns `segment ++ "_"` when `parent` is empty (no
leading underscore) and `parent ++ segment ++ "_"` when `parent` is
non-empty. -/
theorem prefixJoin_spec (a b : String) :
    (b = "" → GraphQL.prefixJoin a b = a) ∧
    (b ≠ "" → a = "" → GraphQL.prefixJoin a b = b ++ "_") ∧
    (b ≠ "" → a ≠ "" → GraphQL.prefixJoin a b = (a ++ b) ++ "_") := by
  unfold GraphQL.prefixJoin
  refine ⟨?_, ?_, ?_⟩
  · intro hb
    subst hb
    simp
  · intro hb ha
    subst ha
    rw [if_neg, if_pos]
    · simp [String.length]
    · simpa [string_length_eq_zero_iff] using hb
  · intro hb ha
    rw [if_neg, if_neg]
    · simpa [string_length_eq_zero_iff] using ha
    · simpa [string_length_eq_zero_iff] using hb

/-- Witness for C3: the three branches evaluated at concrete inputs. -/
theorem prefixJoin_spec_witness :
    GraphQL.prefixJoin "acc" "" = "acc" ∧
    GraphQL.prefixJoin "" "bills" = "bills" ++ "_" ∧
    GraphQL.prefixJoin "account_" "bills" = ("account_" ++ "bills") ++ "_" :=
  ⟨(prefixJoin_spec "acc" "").1 rfl,
   (prefixJoin_spec "" "bills").2.1 (by decide) rfl,
   (prefixJoin_spec "account_" "bills").2.2 (by decide) (by decide)⟩

/-- Push a list of fragments in order (iterated `ParamBuffer::push`). -/
def ParamBuffer.pushAll (pb : ParamBuffer) (l : List String) : ParamBuffer :=
  l.foldl ParamBuffer.push pb

/-- The fragments joined in push order, `", "` inserted between
consecutive fragments. -/
def sepJoin : List String → String
  | [] => ""
  | x :: xs => xs.foldl (fun acc s => (acc ++ ", ") ++ s) x

theorem append_ne_empty_of_left (a b : String) (h : a ≠ "") : a ++ b ≠ "" := by
  intro hc
  have hlen := congrArg String.length hc
  rw [String.length_append] at hlen
  have h0 : ("" : String).length = 0 := rfl
  rw [h0] at hlen
  exact h (string_length_eq_zero_iff.mp (by omega))

theorem append_ne_empty_of_right (a b : String) (h : b ≠ "") : a ++ b ≠ "" := by
  intro hc
  have hlen := congrArg String.length hc
  rw [String.length_append] at hlen
  have h0 : ("" : String).length = 0 := rfl
  rw [h0] at hlen
  exact h (string_length_eq_zero_iff.mp (by omega))

theorem pushAll_buf (xs : List String) (b : String) (hb : b ≠ "") :
    (ParamBuffer.pushAll ⟨b⟩ xs).buf = xs.foldl (fun acc s => (acc ++ ", ") ++ s) b := by
  induction xs generalizing b with
  | nil => rfl
  | cons x xs ih =>
    have h1 : ParamBuffer.push ⟨b⟩ x = ⟨(b ++ ", ") ++ x⟩ := by
      simp only [ParamBuffer.push]
      rw [if_neg]
      simpa [string_length_eq_zero_iff] using hb
    have hb' : (b ++ ", ") ++ x ≠ "" :=
      append_ne_empty_of_left _ _ (append_ne_empty_of_right _ _ (by decide))
    show (ParamBuffer.pushAll (ParamBuffer.push ⟨b⟩ x) xs).buf = _
    rw [h1, ih _ hb']
    rfl

theorem foldl_sep_pre (xs : List String) (a b : String) :
    xs.foldl (fun acc s => (acc ++ ", ") ++ s) (a ++ b) =
      a ++ xs.foldl (fun acc s => (acc ++ ", ") ++ s) b := by
  induction xs generalizing b with
  | nil => rfl
  | cons x xs ih =>
    simp only [List.foldl_cons]
    rw [String.append_assoc a b ", ", String.append_assoc a (b ++ ", ") x]
    exact ih ((b ++ ", ") ++ x)

theorem consume_of_ne (pb : ParamBuffer) (h : pb.buf ≠ "") : pb.consume = pb.buf ++ ")" := by
  unfold ParamBuffer.consume
  rw [if_pos]
  exact Nat.pos_of_ne_zero (fun hc => h (string_length_eq_zero_iff.mp hc))

theorem pushAll_cons_consume (frag : String) (rest : List String) :
    (ParamBuffer.new.pushAll (frag :: rest)).consume =
      ("(" ++ sepJoin (frag :: rest)) ++ ")" := by
  have h0 : ParamBuffer.new.push frag = ⟨"(" ++ frag⟩ := rfl
  have hne : ("(" : String) ++ frag ≠ "" := append_ne_empty_of_left _ _ (by decide)
  have hbuf : (ParamBuffer.new.pushAll (frag :: rest)).buf =
      "(" ++ rest.foldl (fun acc s => (acc ++ ", ") ++ s) frag := by
    show (ParamBuffer.pushAll (ParamBuffer.new.push frag) rest).buf = _
    rw [h0, pushAll_buf rest _ hne, foldl_sep_pre]
  rw [consume_of_ne _ (by rw [hbuf]; exact append_ne_empty_of_left _ _ (by decide)), hbuf]
  rfl

/-- C4: a fresh `ParamBuffer` consumed after zero pushes yields `""`;
after one push of `frag` it yields `"(" ++ frag ++ ")"`; after pushing
`frag :: rest` it yields all fragments in push order, `", "`-separated,
inside one wrapping pair of parentheses. -/
theorem paramBuffer_consume_spec (frag : String) (rest : List String) :
    ParamBuffer.new.consume = "" ∧
    (ParamBuffer.new.pushAll [frag]).consume = ("(" ++ frag) ++ ")" ∧
    (ParamBuffer.new.pushAll (frag :: rest)).consume =
      ("(" ++ sepJoin (frag :: rest)) ++ ")" :=
  ⟨rfl, pushAll_cons_consume frag [], pushAll_cons_consume frag rest⟩

/-- The `VariableBuffer` (src/traits.rs): a mapping from fully-prefixed
variable name to JSON value.  `HashMap::insert` semantics: inserting an
existing key replaces its value. -/
structure VariableBuffer where
  map : List (String × Json)

/-- The `VariableBuffer::new`. -/
def VariableBuffer.new : VariableBuffer := { map := [] }

/-- The `HashMap::insert`: replace the value when the key is present,
otherwise add the binding. -/
def insertKV : List (String × Json) → String → Json → List (String × Json)
  | [], k, v => [(k, v)]
  | (k', v') :: rest, k, v =>
    if k' = k then (k, v) :: rest else (k', v') :: insertKV rest k v

/-- The `VariableBuffer::push_variable`: inserts the value under the key
`prefix ++ name`.  (`serde_json::to_value` is the identity here because
leaf values are already modelled as `Json`, so the fallible conversion
never fails in the model.) -/
def VariableBuffer.pushVariable (vb : VariableBuffer) (p paramName : String) (value : Json) :
    VariableBuffer :=
  { map := insertKV vb.map (p ++ paramName) value }

mutual
/-- One field of a parameter object: a scalar leaf (with its wire type
name and current value) or a nested composite parameter object.  This is
the parameter-tree shape that implementations of `GraphQLQueryParams`
(src/traits.rs) range over. -/
inductive Field where
  | scalar (name : String) (typeName : String) (value : Json) : Field
  | nested (name : String) (sub : Fields) : Field

/-- The ordered fields of one composite parameter object. -/
inductive Fields where
  | nil : Fields
  | cons (head : Field) (tail : Fields) : Fields
end

mutual
/-- The `get_formal_part` contribution of one field: a scalar field calls
`ParamBuffer::push_formal` with the current prefix and its own name; a
nested field recurses with the prefix extended by `GraphQL::prefix`. -/
def fieldFormalPart : Field → ParamBuffer → String → ParamBuffer
  | .scalar n ty _, pb, p => pb.pushFormal p n ty
  | .nested n sub, pb, p => fieldsFormalPart sub pb (GraphQL.prefixJoin p n)

/-- The `get_formal_part` of a composite: each field contributes in order. -/
def fieldsFormalPart : Fields → ParamBuffer → String → ParamBuffer
  | .nil, pb, _ => pb
  | .cons f fs, pb, p => fieldsFormalPart fs (fieldFormalPart f pb p) p
end

mutual
/-- The `get_actual_part` contribution of one field, symmetric to the formal
contribution but via `ParamBuffer::push_actual`. -/
def fieldActualPart : Field → ParamBuffer → String → ParamBuffer
  | .scalar n _ _, pb, p => pb.pushActual p n
  | .nested n sub, pb, p => fieldsActualPart sub pb (GraphQL.prefixJoin p n)

/-- The `get_actual_part` of a composite. -/
def fieldsActualPart : Fields → ParamBuffer → String → ParamBuffer
  | .nil, pb, _ => pb
  | .cons f fs, pb, p => fieldsActualPart fs (fieldActualPart f pb p) p
end

mutual
/-- The `get_variables_part` contribution of one field: a scalar field calls
`VariableBuffer::push_variable`; a nested field recurses with the
extended prefix. -/
def fieldVariablesPart : Field → VariableBuffer → String → VariableBuffer
  | .scalar n _ v, vb, p => vb.pushVariable p n v
  | .nested n sub, vb, p => fieldsVariablesPart sub vb (GraphQL.prefixJoin p n)

/-- The `get_variables_part` of a composite. -/
def fieldsVariablesPart : Fields → VariableBuffer → String → VariableBuffer
  | .nil, vb, _ => vb
  | .cons f fs, vb, p => fieldsVariablesPart fs (fieldVariablesPart f vb p) p
end

mutual
/-- The (key, value) pairs passed to `push_variable`, in call order. -/
def fieldVarEntries : Field → String → List (String × Json)
  | .scalar n _ v, p => [(p ++ n, v)]
  | .nested n sub, p => fieldsVarEntries sub (GraphQL.prefixJoin p n)

/-- The (key, value) pairs of a whole composite, in call order. -/
def fieldsVarEntries : Fields → String → List (String × Json)
  | .nil, _ => []
  | .cons f fs, p => fieldVarEntries f p ++ fieldsVarEntries fs p
end

mutual
/-- The fully-qualified variable names `prefix ++ name` produced at each
scalar position, in contribution order.  The same string is the name
used by all three renderings: `push_formal` declares `$prefix ++ name`,
`push_actual` binds `name: $prefix ++ name`, and `push_variable` inserts
under key `prefix ++ name`. -/
def fieldVarNames : Field → String → List String
  | .scalar n _ _, p => [p ++ n]
  | .nested n sub, p => fieldsVarNames sub (GraphQL.prefixJoin p n)

/-- The fully-qualified variable names of a whole composite. -/
def fieldsVarNames : Fields → String → List String
  | .nil, _ => []
  | .cons f fs, p => fieldVarNames f p ++ fieldsVarNames fs p
end

/-- The field name of a field. -/
def fieldName : Field → String
  | .scalar n _ _ => n
  | .nested n _ => n

/-- The sibling field names of one composite, in order. -/
def fieldsNames : Fields → List String
  | .nil => []
  | .cons f fs => fieldName f :: fieldsNames fs

mutual
/-- Sibling field names are pairwise distinct within every composite of
the tree (the hypothesis of the collision-freedom claim as stated). -/
def fieldDistinct : Field → Bool
  | .scalar _ _ _ => true
  | .nested _ sub => fieldsDistinct sub

/-- The `fieldDistinct` for a composite, checking the level's names too. -/
def fieldsDistinct : Fields → Bool
  | .nil => true
  | .cons f fs => decide (fieldName f ∉ fieldsNames fs) && fieldDistinct f && fieldsDistinct fs
end

/-- A field name usable without collisions: non-empty and free of the
`'_'` separator character. -/
def goodName (n : String) : Bool :=
  decide (n ≠ "") && decide ('_' ∉ n.data)

mutual
/-- Well-formed tree: every field name is non-empty and underscore-free,
and sibling names are pairwise distinct within every composite. -/
def fieldWF : Field → Bool
  | .scalar n _ _ => goodName n
  | .nested n sub => goodName n && fieldsWF sub

/-- The `fieldWF` for a composite. -/
def fieldsWF : Fields → Bool
  | .nil => true
  | .cons f fs => fieldWF f && decide (fieldName f ∉ fieldsNames fs) && fieldsWF fs
end

/-- The tree refuting the claim as stated: a scalar sibling named
`"a_b"` next to a composite sibling named `"a"` containing a scalar
`"b"`.  All sibling names are pairwise distinct within their composite,
yet both scalar positions render the variable name `"a_b"`. -/
def collideFields : Fields :=
  .cons (.scalar "a_b" "Int" .null)
    (.cons (.nested "a" (.cons (.scalar "b" "Int" .null) .nil)) .nil)

/-- C1 (counterexample): with pairwise-distinct sibling names at every
composite, two distinct tree positions still render the same
fully-qualified variable name when names may contain underscores. -/
theorem varNames_collision_counterexample :
    fieldsDistinct collideFields = true ∧
    fieldsVarNames collideFields "" = ["a_b", "a_b"] ∧
    ¬ (fieldsVarNames collideFields "").Nodup := by
  refine ⟨by decide, by decide, ?_⟩
  intro h
  rw [show fieldsVarNames collideFields "" = ["a_b", "a_b"] from by decide] at h
  simp at h

/-- When the segment is non-empty the prefix-join always appends the
segment followed by one underscore. -/
theorem prefixJoin_ne (p n : String) (hn : n ≠ "") :
    GraphQL.prefixJoin p n = (p ++ n) ++ "_" := by
  have hnl : ¬ n.length = 0 := fun hc => hn (string_length_eq_zero_iff.mp hc)
  unfold GraphQL.prefixJoin
  rw [if_neg hnl]
  by_cases hp : p.length = 0
  · rw [if_pos hp]
    have hpe : p = "" := string_length_eq_zero_iff.mp hp
    subst hpe
    rfl
  · rw [if_neg hp]

/-- A separator tail: empty, or starting with the underscore
separator. -/
def sepTail (t : List Char) : Prop := t = [] ∨ ∃ r, t = '_' :: r

theorem name_sep_eq (t1 t2 : List Char) (s1 : sepTail t1) (s2 : sepTail t2) :
    ∀ n1 n2 : List Char, '_' ∉ n1 → '_' ∉ n2 → n1 ++ t1 = n2 ++ t2 → n1 = n2 := by
  intro n1
  induction n1 with
  | nil =>
    intro n2 h1 h2 h
    cases n2 with
    | nil => rfl
    | cons c n2' =>
      exfalso
      rcases s1 with ht | ⟨r, ht⟩
      · rw [ht] at h
        exact absurd h (by simp)
      · rw [ht] at h
        rw [List.nil_append, List.cons_append] at h
        injection h with hhead _
        refine h2 ?_
        rw [← hhead]
        exact List.mem_cons_self _ _
  | cons c n1' ih =>
    intro n2 h1 h2 h
    cases n2 with
    | nil =>
      exfalso
      rcases s2 with ht | ⟨r, ht⟩
      · rw [ht] at h
        exact absurd h (by simp)
      · rw [ht] at h
        rw [List.nil_append, List.cons_append] at h
        injection h with hhead _
        refine h1 ?_
        rw [hhead]
        exact List.mem_cons_self _ _
    | cons d n2' =>
      rw [List.cons_append, List.cons_append] at h
      injection h with hhead htail
      have hrec := ih n2' (fun hm => h1 (List.mem_cons_of_mem _ hm))
        (fun hm => h2 (List.mem_cons_of_mem _ hm)) htail
      rw [hhead, hrec]

theorem goodName_props {n : String} (h : goodName n = true) : n ≠ "" ∧ '_' ∉ n.data := by
  simp only [goodName, Bool.and_eq_true, decide_eq_true_eq] at h
  exact h

theorem fieldWF_goodName : ∀ {f : Field}, fieldWF f = true → goodName (fieldName f) = true
  | .scalar _ _ _, h => h
  | .nested _ _, h => by
    simp only [fieldWF, Bool.and_eq_true] at h
    exact h.1

mutual
theorem fieldVarNames_sub : ∀ (f : Field) (q k : String),
    k ∈ fieldVarNames f q → ∃ s, k.data = q.data ++ s
  | .scalar n _ _, q, k => by
    intro hk
    simp only [fieldVarNames, List.mem_singleton] at hk
    subst hk
    exact ⟨n.data, String.data_append q n⟩
  | .nested n sub, q, k => by
    intro hk
    simp only [fieldVarNames] at hk
    obtain ⟨s, hs⟩ := fieldsVarNames_sub sub (GraphQL.prefixJoin q n) k hk
    by_cases hne : n = ""
    · subst hne
      rw [show GraphQL.prefixJoin q "" = q from rfl] at hs
      exact ⟨s, hs⟩
    · rw [prefixJoin_ne q n hne] at hs
      refine ⟨(n.data ++ ['_']) ++ s, ?_⟩
      rw [hs, String.data_append, String.data_append]
      have hu : ("_" : String).data = ['_'] := rfl
      rw [hu]
      simp [List.append_assoc]

theorem fieldsVarNames_sub : ∀ (fs : Fields) (q k : String),
    k ∈ fieldsVarNames fs q → ∃ s, k.data = q.data ++ s
  | .nil, q, k => by
    intro hk
    simp [fieldsVarNames] at hk
  | .cons f fs, q, k => by
    intro hk
    simp only [fieldsVarNames, List.mem_append] at hk
    rcases hk with hk | hk
    · exact fieldVarNames_sub f q k hk
    · exact fieldsVarNames_sub fs q k hk
end

theorem field_shape (f : Field) (p : String) (hwf : fieldWF f = true) :
    ∀ k ∈ fieldVarNames f p,
      ∃ t, k.data = (p.data ++ (fieldName f).data) ++ t ∧ sepTail t := by
  cases f with
  | scalar n ty v =>
    intro k hk
    simp only [fieldVarNames, List.mem_singleton] at hk
    subst hk
    refine ⟨[], ?_, Or.inl rfl⟩
    rw [List.append_nil, String.data_append]
    rfl
  | nested n sub =>
    intro k hk
    simp only [fieldVarNames] at hk
    have hg : goodName n = true := by
      simp only [fieldWF, Bool.and_eq_true] at hwf
      exact hwf.1
    have hne : n ≠ "" := (goodName_props hg).1
    obtain ⟨s, hs⟩ := fieldsVarNames_sub sub (GraphQL.prefixJoin p n) k hk
    rw [prefixJoin_ne p n hne] at hs
    refine ⟨'_' :: s, ?_, Or.inr ⟨s, rfl⟩⟩
    rw [hs, String.data_append, String.data_append]
    have hu : ("_" : String).data = ['_'] := rfl
    rw [hu]
    show (p.data ++ n.data) ++ ['_'] ++ s = (p.data ++ n.data) ++ ('_' :: s)
    simp [List.append_assoc]

theorem fields_shape : ∀ (fs : Fields) (p : String), fieldsWF fs = true →
    ∀ k ∈ fieldsVarNames fs p,
      ∃ n t, n ∈ fieldsNames fs ∧ goodName n = true ∧
        k.data = (p.data ++ n.data) ++ t ∧ sepTail t
  | .nil, p => by
    intro _ k hk
    simp [fieldsVarNames] at hk
  | .cons f fs, p => by
    intro hwf k hk
    simp only [fieldsWF, Bool.and_eq_true] at hwf
    obtain ⟨⟨hwf_f, _⟩, hwf_fs⟩ := hwf
    simp only [fieldsVarNames, List.mem_append] at hk
    rcases hk with hk | hk
    · obtain ⟨t, ht, hsep⟩ := field_shape f p hwf_f k hk
      exact ⟨fieldName f, t, List.mem_cons_self _ _, fieldWF_goodName hwf_f, ht, hsep⟩
    · obtain ⟨n, t, hn, hg, ht, hsep⟩ := fields_shape fs p hwf_fs k hk
      exact ⟨n, t, List.mem_cons_of_mem _ hn, hg, ht, hsep⟩

theorem names_disjoint (p n1 n2 : String) (t1 t2 : List Char)
    (hg1 : goodName n1 = true) (hg2 : goodName n2 = true) (hne : n1 ≠ n2)
    (hs1 : sepTail t1) (hs2 : sepTail t2) :
    (p.data ++ n1.data) ++ t1 ≠ (p.data ++ n2.data) ++ t2 := by
  intro h
  rw [List.append_assoc, List.append_assoc] at h
  have h' := List.append_cancel_left h
  have hdata : n1.data = n2.data :=
    name_sep_eq t1 t2 hs1 hs2 n1.data n2.data (goodName_props hg1).2 (goodName_props hg2).2 h'
  exact hne (String.ext hdata)

mutual
theorem fieldVarNames_nodup : ∀ (f : Field) (p : String),
    fieldWF f = true → (fieldVarNames f p).Nodup
  | .scalar n _ _, p => by
    intro _
    simp [fieldVarNames]
  | .nested n sub, p => by
    intro h
    simp only [fieldWF, Bool.and_eq_true] at h
    simp only [fieldVarNames]
    exact fieldsVarNames_nodup sub (GraphQL.prefixJoin p n) h.2

theorem fieldsVarNames_nodup : ∀ (fs : Fields) (p : String),
    fieldsWF fs = true → (fieldsVarNames fs p).Nodup
  | .nil, p => by
    intro _
    simp [fieldsVarNames]
  | .cons f fs, p => by
    intro h
    simp only [fieldsWF, Bool.and_eq_true] at h
    obtain ⟨⟨hf, hdec⟩, hfs⟩ := h
    simp only [fieldsVarNames]
    rw [List.nodup_append]
    refine ⟨fieldVarNames_nodup f p hf, fieldsVarNames_nodup fs p hfs, ?_⟩
    intro k hk1 hk2
    obtain ⟨t1, ht1, hsep1⟩ := field_shape f p hf k hk1
    obtain ⟨n2, t2, hn2, hg2, ht2, hsep2⟩ := fields_shape fs p hfs k hk2
    have hne : fieldName f ≠ n2 := by
      intro hc
      rw [decide_eq_true_eq] at hdec
      exact hdec (hc ▸ hn2)
    exact names_disjoint p (fieldName f) n2 t1 t2 (fieldWF_goodName hf) hg2 hne hsep1 hsep2
      (ht1.symm.trans ht2)
end

/-- C1 (amended): for every parameter tree whose field names are
non-empty, underscore-free, and pairwise distinct within each composite,
and every starting prefix, the fully-qualified variable names produced
by the renderings (the `prefix ++ name` strings used alike by
`push_formal`, `push_actual` and `push_variable`) are pairwise distinct
across all tree positions. -/
theorem varNames_collision_free (fs : Fields) (p : String) (h : fieldsWF fs = true) :
    (fieldsVarNames fs p).Nodup :=
  fieldsVarNames_nodup fs p h

/-- A well-formed nested parameter tree used as concrete input. -/
def demoFields : Fields :=
  .cons (.scalar "accountNumber" "String!" (.str "A-B3D8B29D"))
    (.cons (.nested "bills"
      (.cons (.scalar "first" "Int" (.num 1))
        (.cons (.nested "transactions"
          (.cons (.scalar "first" "Int" (.num 100)) .nil)) .nil))) .nil)

/-- Witness for C1 (amended) at a concrete well-formed tree. -/
theorem varNames_collision_free_witness :
    fieldsWF demoFields = true ∧ (fieldsVarNames demoFields "account_").Nodup :=
  ⟨by decide, varNames_collision_free demoFields "account_" (by decide)⟩

mutual
/-- The variable names equal the keys of the pushed (key, value)
entries. -/
theorem fieldVarNames_eq_keys : ∀ (f : Field) (p : String),
    fieldVarNames f p = (fieldVarEntries f p).map Prod.fst
  | .scalar _ _ _, _ => rfl
  | .nested n sub, p => fieldsVarNames_eq_keys sub (GraphQL.prefixJoin p n)

/-- The `fieldVarNames_eq_keys` for a composite. -/
theorem fieldsVarNames_eq_keys : ∀ (fs : Fields) (p : String),
    fieldsVarNames fs p = (fieldsVarEntries fs p).map Prod.fst
  | .nil, _ => rfl
  | .cons f fs, p => by
    simp only [fieldsVarNames, fieldsVarEntries, List.map_append]
    rw [fieldVarNames_eq_keys f p, fieldsVarNames_eq_keys fs p]
end

/-- One `push_variable` call expressed on a (key, value) entry. -/
def VariableBuffer.insertEntry (vb : VariableBuffer) (kv : String × Json) : VariableBuffer :=
  { map := insertKV vb.map kv.1 kv.2 }

mutual
/-- The buffer-threading recursion is the fold of `push_variable` over
the entry list: the entry list is a faithful observation of the calls
`get_variables_part` makes. -/
theorem fieldVariablesPart_eq_foldl : ∀ (f : Field) (vb : VariableBuffer) (p : String),
    fieldVariablesPart f vb p = (fieldVarEntries f p).foldl VariableBuffer.insertEntry vb
  | .scalar _ _ _, _, _ => rfl
  | .nested n sub, vb, p => fieldsVariablesPart_eq_foldl sub vb (GraphQL.prefixJoin p n)

/-- The `fieldVariablesPart_eq_foldl` for a composite. -/
theorem fieldsVariablesPart_eq_foldl : ∀ (fs : Fields) (vb : VariableBuffer) (p : String),
    fieldsVariablesPart fs vb p = (fieldsVarEntries fs p).foldl VariableBuffer.insertEntry vb
  | .nil, _, _ => rfl
  | .cons f fs, vb, p => by
    simp only [fieldsVariablesPart, fieldsVarEntries, List.foldl_append]
    rw [fieldVariablesPart_eq_foldl f vb p, fieldsVariablesPart_eq_foldl fs _ p]
end

/-- The `GraphQLQueryParams::get_formal` (default method, src/traits.rs
lines 124-129): run the formal contribution from an empty prefix into a
fresh buffer, then consume. -/
def getFormal (fs : Fields) : String :=
  (fieldsFormalPart fs ParamBuffer.new "").consume

/-- The `GraphQLQueryParams::get_actual` (src/traits.rs lines 131-136). -/
def getActual (fs : Fields) (p : String) : String :=
  (fieldsActualPart fs ParamBuffer.new p).consume

/-- The `GraphQLQueryParams::get_variable_map` (src/traits.rs lines
145-150). -/
def getVariableMap (fs : Fields) : List (String × Json) :=
  (fieldsVariablesPart fs VariableBuffer.new "").map

/-- A render call through a shared reference, modelled as returning the
result together with the (unmutated) parameter tree. -/
def getFormalCall (fs : Fields) : String × Fields := (getFormal fs, fs)

/-- The `get_actual` as a call returning the unmutated tree. -/
def getActualCall (fs : Fields) (p : String) : (String × Fields) := (getActual fs p, fs)

/-- The `get_variable_map` as a call returning the unmutated tree. -/
def getVariableMapCall (fs : Fields) : (List (String × Json)) × Fields :=
  (getVariableMap fs, fs)

/-- C8: each render call leaves the parameter tree unchanged (the Rust
methods take `&self` and allocate a fresh buffer per call), so invoking
`get_formal`, `get_actual` with the same prefix, or `get_variable_map` a
second time on the tree returned by the first call yields an identical
string or map. -/
theorem render_idempotent (fs : Fields) (p : String) :
    (getFormalCall fs).2 = fs ∧
    (getActualCall fs p).2 = fs ∧
    (getVariableMapCall fs).2 = fs ∧
    (getFormalCall (getFormalCall fs).2).1 = (getFormalCall fs).1 ∧
    (getActualCall (getActualCall fs p).2 p).1 = (getActualCall fs p).1 ∧
    (getVariableMapCall (getVariableMapCall fs).2).1 = (getVariableMapCall fs).1 :=
  ⟨rfl, rfl, rfl, rfl, rfl, rfl⟩

/-- The `Location` (src/error.rs). -/
structure Location where
  line : Int
  column : Int
deriving DecidableEq

/-- The `ValidationError` (src/error.rs); `input_path` is camelCased on the
wire. -/
structure ValidationError where
  message : String
  inputPath : List String
deriving DecidableEq

/-- The `Extensions` (src/error.rs); all fields optional. -/
structure Extensions where
  errorType : Option String
  errorCode : Option String
  errorDescription : Option String
  errorClass : Option String
  validationErrors : Option (List ValidationError)
deriving DecidableEq

/-- The `GraphQLJsonError` (src/error.rs): one wire error. -/
structure GraphQLJsonError where
  message : Option String
  locations : List Location
  path : List String
  extensions : Extensions
deriving DecidableEq

/-- The `Error` (src/error.rs), together with the `InternalError` variant
that `Client::new_call` constructs (src/lib.rs line 206).  External
payloads (`reqwest::Error`, `serde_json::Error`, boxed std errors) are
modelled by their message strings and `StatusCode` by its numeric
code. -/
inductive Error where
  | GraphQLError (errs : List GraphQLJsonError) : Error
  | IOError (msg : String) : Error
  | JsonError (msg : String) : Error
  | HttpError (status : Nat) : Error
  | InvalidInputError (msg : String) : Error
  | InternalError (msg : String) : Error
deriving DecidableEq

/-- Key lookup in a decoded JSON object (`serde_json` object maps have
one entry per key). -/
def jsonLookup (fields : List (String × Json)) (k : String) : Option Json :=
  match fields with
  | [] => none
  | (k', v) :: rest => if k' = k then some v else jsonLookup rest k

/-- serde string decoding. -/
def decodeString : Json → Except String String
  | .str s => .ok s
  | _ => .error "invalid type: expected a string"

/-- serde `Vec<String>` decoding. -/
def decodeStringList : Json → Except String (List String)
  | .arr xs => xs.mapM decodeString
  | _ => .error "invalid type: expected an array"

/-- serde `i32` decoding: an integral JSON number representable as a
32-bit signed integer. -/
def decodeI32 : Json → Except String Int
  | .num n =>
    if -2147483648 ≤ n ∧ n < 2147483648 then .ok n
    else .error "invalid value: integer out of i32 range"
  | _ => .error "invalid type: expected an integer"

/-- A required struct field: missing key is a decode error. -/
def reqField (fields : List (String × Json)) (name : String)
    (dec : Json → Except String α) : Except String α :=
  match jsonLookup fields name with
  | some v => dec v
  | none => .error ("missing field " ++ name)

/-- An `Option` struct field: serde maps a missing key or an explicit
`null` to `None`. -/
def optField (fields : List (String × Json)) (name : String)
    (dec : Json → Except String α) : Except String (Option α) :=
  match jsonLookup fields name with
  | none => .ok none
  | some .null => .ok none
  | some v => (dec v).map some

/-- serde decoding of `Location`. -/
def decodeLocation : Json → Except String Location
  | .obj fields => do
    let l ← reqField fields "line" decodeI32
    let c ← reqField fields "column" decodeI32
    .ok ⟨l, c⟩
  | _ => .error "invalid type: expected a map"

/-- serde decoding of `ValidationError`. -/
def decodeValidationError : Json → Except String ValidationError
  | .obj fields => do
    let m ← reqField fields "message" decodeString
    let ip ← reqField fields "inputPath" decodeStringList
    .ok ⟨m, ip⟩
  | _ => .error "invalid type: expected a map"

/-- serde decoding of `Extensions`. -/
def decodeExtensions : Json → Except String Extensions
  | .obj fields => do
    let et ← optField fields "errorType" decodeString
    let ec ← optField fields "errorCode" decodeString
    let ed ← optField fields "errorDescription" decodeString
    let ecl ← optField fields "errorClass" decodeString
    let ve ← optField fields "validationErrors" (fun j =>
      match j with
      | .arr xs => xs.mapM decodeValidationError
      | _ => .error "invalid type: expected an array")
    .ok ⟨et, ec, ed, ecl, ve⟩
  | _ => .error "invalid type: expected a map"

/-- serde decoding of `GraphQLJsonError`: `message` optional,
`locations`, `path` and `extensions` required. -/
def decodeGraphQLJsonError : Json → Except String GraphQLJsonError
  | .obj fields => do
    let m ← optField fields "message" decodeString
    let locs ← reqField fields "locations" (fun j =>
      match j with
      | .arr xs => xs.mapM decodeLocation
      | _ => .error "invalid type: expected an array")
    let pth ← reqField fields "path" decodeStringList
    let ext ← reqField fields "extensions" decodeExtensions
    .ok ⟨m, locs, pth, ext⟩
  | _ => .error "invalid type: expected a map"

/-- The `GraphQLResponse` (src/lib.rs lines 53-58): the response envelope.
`errors` is `Option<Vec<GraphQLJsonError>>`, `data` is a required
`HashMap<String, serde_json::Value>`. -/
structure GraphQLResponse where
  errors : Option (List GraphQLJsonError)
  data : List (String × Json)

/-- serde decoding of the `errors` field's payload: an array of wire
errors. -/
def decodeErrorsField (j : Json) : Except String (List GraphQLJsonError) :=
  match j with
  | .arr xs => xs.mapM decodeGraphQLJsonError
  | _ => .error "invalid type: expected an array"

/-- serde decoding of the `data` field's payload: an object, kept as an
opaque JSON map. -/
def decodeDataField (j : Json) : Except String (List (String × Json)) :=
  match j with
  | .obj kvs => .ok kvs
  | _ => .error "invalid type: expected a map"

/-- serde decoding of `GraphQLResponse`: `errors` optional (absent or
`null` become `None`), `data` a required object field; unknown fields
are ignored (serde default). -/
def decodeGraphQLResponse : Json → Except String GraphQLResponse
  | .obj fields => do
    let errs ← optField fields "errors" decodeErrorsField
    let d ← reqField fields "data" decodeDataField
    .ok ⟨errs, d⟩
  | _ => .error "invalid type: expected a map"

deriving instance DecidableEq for Except

/-- The response-handling phase of `Client::new_call` (src/lib.rs lines
171-208): the status gate, the body parse (`response.json()`, whose
failure surfaces as a `reqwest::Error`, hence `IOError`), the envelope
decode (`serde_json::from_value`, hence `JsonError`), the error-list
demultiplexing, the per-query extraction and the result decode.
`decodeT` stands for the caller's `T: DeserializeOwned` instance; `body`
is the outcome of parsing the HTTP body as JSON. -/
def newCallHandle (decodeT : Json → Except String α) (queryName : String)
    (status : Nat) (body : Except String Json) : Except Error α :=
  if status ≠ 200 then .error (.HttpError status)
  else
    match body with
    | .error e => .error (.IOError e)
    | .ok responseJson =>
      match decodeGraphQLResponse responseJson with
      | .error e => .error (.JsonError e)
      | .ok resp =>
        match resp.errors with
        | some errs => .error (.GraphQLError errs)
        | none =>
          match jsonLookup resp.data queryName with
          | some v =>
            match decodeT v with
            | .ok t => .ok t
            | .error e => .error (.JsonError e)
          | none => .error (.InternalError "No response found")

/-- The response-handling phase of `Client::call` (src/lib.rs lines
233-272): identical to `new_call` through the error-list check, then it
returns the whole `data` map without per-field decoding. -/
def callHandle (status : Nat) (body : Except String Json) :
    Except Error (List (String × Json)) :=
  if status ≠ 200 then .error (.HttpError status)
  else
    match body with
    | .error e => .error (.IOError e)
    | .ok responseJson =>
      match decodeGraphQLResponse responseJson with
      | .error e => .error (.JsonError e)
      | .ok resp =>
        match resp.errors with
        | some errs => .error (.GraphQLError errs)
        | none => .ok resp.data

theorem except_bind_error (e : ε) (f : α → Except ε β) :
    (Except.error e : Except ε α) >>= f = .error e := rfl

theorem except_bind_ok (a : α) (f : α → Except ε β) :
    (Except.ok a : Except ε α) >>= f = f a := rfl

/-- C2: once the envelope decodes, a present non-empty `errors` list
makes both calls fail with `GraphQLError` carrying exactly that list,
whatever `data` holds; with `errors` absent neither call can produce a
`GraphQLError`. -/
theorem errors_precedence (decodeT : Json → Except String α) (q : String)
    (j : Json) (resp : GraphQLResponse) (hj : decodeGraphQLResponse j = .ok resp) :
    (∀ errs, resp.errors = some errs → errs ≠ [] →
      newCallHandle decodeT q 200 (.ok j) = .error (.GraphQLError errs) ∧
      callHandle 200 (.ok j) = .error (.GraphQLError errs)) ∧
    (resp.errors = none →
      ∀ errs, newCallHandle decodeT q 200 (.ok j) ≠ .error (.GraphQLError errs) ∧
        callHandle 200 (.ok j) ≠ .error (.GraphQLError errs)) := by
  have h200 : ¬ ((200 : Nat) ≠ 200) := fun hc => hc rfl
  constructor
  · intro errs he _
    constructor
    · simp [newCallHandle, if_neg h200, hj, he]
    · simp [callHandle, if_neg h200, hj, he]
  · intro he errs
    constructor
    · simp only [newCallHandle, if_neg h200, hj, he]
      cases hv : jsonLookup resp.data q with
      | some v =>
        cases hd : decodeT v with
        | ok t => simp [hv, hd]
        | error e => simp [hv, hd]
      | none => simp [hv]
    · simp [callHandle, if_neg h200, hj, he]

/-- The spec's scenario envelope: one wire error with message `"boom"`,
empty locations/path/extensions, and an empty `data` object. -/
def boomEnvelope : Json :=
  .obj [("errors", .arr [.obj [("message", .str "boom"), ("locations", .arr []),
    ("path", .arr []), ("extensions", .obj [])]]), ("data", .obj [])]

/-- The decoded wire error of `boomEnvelope`. -/
def boomError : GraphQLJsonError := ⟨some "boom", [], [], ⟨none, none, none, none, none⟩⟩

/-- Witness for C2 at the spec's scenario envelope. -/
theorem errors_precedence_witness :
    newCallHandle (fun _ => (.ok () : Except String Unit)) "account" 200 (.ok boomEnvelope)
      = .error (.GraphQLError [boomError]) :=
  ((errors_precedence (fun _ => (.ok () : Except String Unit)) "account" boomEnvelope
      ⟨some [boomError], []⟩ rfl).1 [boomError] rfl (by decide)).1

/-- C5: a non-2xx status makes both calls fail with `HttpError(status)`
whatever the body is — the outcome does not depend on the body, so no
body parsing is attempted and only success statuses can proceed to
parsing. -/
theorem http_status_guard (decodeT : Json → Except String α) (q : String)
    (status : Nat) (h : ¬ (200 ≤ status ∧ status ≤ 299)) :
    (∀ body, newCallHandle decodeT q status body = .error (.HttpError status)) ∧
    (∀ body, callHandle status body = .error (.HttpError status)) := by
  have hne : status ≠ 200 := by omega
  constructor
  · intro body
    unfold newCallHandle
    rw [if_pos hne]
  · intro body
    unfold callHandle
    rw [if_pos hne]

/-- Witness for C5: status 500 with an unparsable body yields
`HttpError 500`. -/
theorem http_status_guard_witness :
    newCallHandle (fun _ => (.ok () : Except String Unit)) "account" 500 (.error "no body")
      = .error (.HttpError 500) :=
  (http_status_guard (fun _ => (.ok () : Except String Unit)) "account" 500
    (by decide)).1 (.error "no body")

/-- A decodable envelope whose `data` object has no `"viewer"` key. -/
def missingKeyEnvelope : Json := .obj [("data", .obj [])]

/-- C6 (counterexample): when `data` lacks the query key the message is
the fixed string `"No response found"`; it does not name the missing
query name, contrary to the claim. -/
theorem internal_error_message_counterexample :
    newCallHandle (fun _ => (.ok () : Except String Unit)) "viewer" 200 (.ok missingKeyEnvelope)
      = .error (.InternalError "No response found") ∧
    newCallHandle (fun _ => (.ok () : Except String Unit)) "viewer" 200 (.ok missingKeyEnvelope)
      ≠ .error (.InternalError ("no response found for " ++ "viewer")) := by
  constructor
  · rfl
  · decide

/-- C6 (amended): with no errors reported, a missing `queryName` key in
`data` fails with `InternalError "No response found"` — a fixed message
that does not name the query — and a present key is decoded into the
caller's result type, a shape mismatch surfacing as a decode error. -/
theorem data_lookup_spec (decodeT : Json → Except String α) (q : String) (j : Json)
    (resp : GraphQLResponse) (hj : decodeGraphQLResponse j = .ok resp)
    (hnoerr : resp.errors = none) :
    (jsonLookup resp.data q = none →
      newCallHandle decodeT q 200 (.ok j) = .error (.InternalError "No response found")) ∧
    (∀ v, jsonLookup resp.data q = some v →
      newCallHandle decodeT q 200 (.ok j) =
        match decodeT v with
        | .ok t => .ok t
        | .error e => .error (.JsonError e)) := by
  have h200 : ¬ ((200 : Nat) ≠ 200) := fun hc => hc rfl
  constructor
  · intro hcase
    simp [newCallHandle, if_neg h200, hj, hnoerr, hcase]
  · intro v hcase
    simp [newCallHandle, if_neg h200, hj, hnoerr, hcase]

/-- An envelope carrying `data.account = 7` and no errors. -/
def accountEnvelope : Json := .obj [("data", .obj [("account", .num 7)])]

/-- Witness for C6 (amended): both branches at concrete envelopes. -/
theorem data_lookup_spec_witness :
    newCallHandle decodeI32 "account" 200 (.ok accountEnvelope) = .ok 7 ∧
    newCallHandle decodeI32 "viewer" 200 (.ok accountEnvelope)
      = .error (.InternalError "No response found") :=
  ⟨((data_lookup_spec decodeI32 "account" accountEnvelope ⟨none, [("account", .num 7)]⟩
      rfl rfl).2 (.num 7) rfl).trans (by decide),
   (data_lookup_spec decodeI32 "viewer" accountEnvelope ⟨none, [("account", .num 7)]⟩
      rfl rfl).1 rfl⟩

/-- C10: a response body that is a JSON object with no top-level `data`
key fails envelope decoding, so the call reports a JSON decode error and
never a `GraphQLError`, even when a non-empty `errors` list is
present. -/
theorem missing_data_decode_error (decodeT : Json → Except String α) (q : String)
    (fields : List (String × Json)) (h : jsonLookup fields "data" = none) :
    (∃ e, decodeGraphQLResponse (.obj fields) = .error e) ∧
    (∃ e, newCallHandle decodeT q 200 (.ok (.obj fields)) = .error (.JsonError e)) ∧
    (∀ errs, newCallHandle decodeT q 200 (.ok (.obj fields)) ≠ .error (.GraphQLError errs)) := by
  have h200 : ¬ ((200 : Nat) ≠ 200) := fun hc => hc rfl
  have hdec : ∃ e, decodeGraphQLResponse (.obj fields) = .error e := by
    cases hopt : optField fields "errors" decodeErrorsField with
    | error e =>
      exact ⟨e, by simp [decodeGraphQLResponse, hopt, except_bind_error]⟩
    | ok v =>
      refine ⟨"missing field " ++ "data", ?_⟩
      simp [decodeGraphQLResponse, hopt, except_bind_ok, except_bind_error, reqField, h]
  obtain ⟨e, he⟩ := hdec
  refine ⟨⟨e, he⟩, ⟨e, ?_⟩, ?_⟩
  · simp [newCallHandle, if_neg h200, he]
  · intro errs
    simp [newCallHandle, if_neg h200, he]

/-- Witness for C10: a body with a non-empty `errors` list but no
`data` key is not reported as a `GraphQLError`. -/
theorem missing_data_decode_error_witness :
    newCallHandle (fun _ => (.ok () : Except String Unit)) "account" 200
      (.ok (.obj [("errors", .arr [.obj [("message", .str "boom"), ("locations", .arr []),
        ("path", .arr []), ("extensions", .obj [])]])]))
      ≠ .error (.GraphQLError [boomError]) :=
  (missing_data_decode_error (fun _ => (.ok () : Except String Unit)) "account"
    [("errors", .arr [.obj [("message", .str "boom"), ("locations", .arr []),
      ("path", .arr []), ("extensions", .obj [])]])] rfl).2.2 [boomError]

/-- The `Int::deserialize` via `IntVisitor` (src/types/int.rs lines
140-175): `deserialize_any` routes an integral JSON number to
`visit_u64`/`visit_i64`, where `i32::try_from` accepts exactly the
32-bit signed range; every other JSON shape reaches a default `Visitor`
method that rejects it, since `IntVisitor` implements only the two
integer visitors. -/
def intDeserialize : Json → Except String Int
  | .num n =>
    if -2147483648 ≤ n ∧ n < 2147483648 then .ok n
    else .error "Invalid i32 value"
  | .null => .error "invalid type: unit value, expected an i32 value"
  | .bool _ => .error "invalid type: boolean, expected an i32 value"
  | .str _ => .error "invalid type: string, expected an i32 value"
  | .arr _ => .error "invalid type: sequence, expected an i32 value"
  | .obj _ => .error "invalid type: map, expected an i32 value"

/-- C9: decoding the `Int` scalar succeeds exactly on JSON integers in
the 32-bit signed range, yielding that value, and fails on out-of-range
integers, non-numeric JSON, arrays and objects. -/
theorem int_decode_spec (n : Int) (b : Bool) (s : String) (xs : List Json)
    (kvs : List (String × Json)) :
    (-2147483648 ≤ n ∧ n < 2147483648 → intDeserialize (.num n) = .ok n) ∧
    (¬ (-2147483648 ≤ n ∧ n < 2147483648) →
      intDeserialize (.num n) = .error "Invalid i32 value") ∧
    intDeserialize (.str s) = .error "invalid type: string, expected an i32 value" ∧
    intDeserialize (.bool b) = .error "invalid type: boolean, expected an i32 value" ∧
    intDeserialize .null = .error "invalid type: unit value, expected an i32 value" ∧
    intDeserialize (.arr xs) = .error "invalid type: sequence, expected an i32 value" ∧
    intDeserialize (.obj kvs) = .error "invalid type: map, expected an i32 value" := by
  refine ⟨?_, ?_, rfl, rfl, rfl, rfl, rfl⟩
  · intro h
    simp only [intDeserialize]
    rw [if_pos h]
  · intro h
    simp only [intDeserialize]
    rw [if_neg h]

/-- Witness for C9: `66000` decodes to itself; the first integers past
either end of the 32-bit range fail. -/
theorem int_decode_spec_witness :
    intDeserialize (.num 66000) = .ok 66000 ∧
    intDeserialize (.num 2147483648) = .error "Invalid i32 value" ∧
    intDeserialize (.num (-2147483649)) = .error "Invalid i32 value" :=
  ⟨(int_decode_spec 66000 true "" [] []).1 (by decide),
   (int_decode_spec 2147483648 true "" [] []).2.1 (by decide),
   (int_decode_spec (-2147483649) true "" [] []).2.1 (by decide)⟩

/-- The `GraphQLType::get_query_part` default implementation (src/traits.rs
lines 196-198), as a function of the `get_query_attributes` body the
implementing type supplies for the given params and prefix. -/
def getQueryPart (attrs : String) : String :=
  ("\x7b #get_query_part\n  " ++ attrs) ++ "\n\x7d #/get_query_part\n"

/-- The claim's rendering, following the spec's words: the attribute
body wrapped in braces with no other text added. -/
def specQueryPartTight (attrs : String) : String := ("\x7b" ++ attrs) ++ "\x7d"

/-- The claim's rendering with single spaces inside the braces, the
other reading of the spec's words. -/
def specQueryPartSpaced (attrs : String) : String := ("\x7b " ++ attrs) ++ " \x7d"

/-- C7 (counterexample): at attribute body `"id"` the rendered selection
set differs from the body wrapped in bare braces under either reading:
fixed comment markers and newlines are added. -/
theorem getQueryPart_counterexample :
    getQueryPart "id" ≠ specQueryPartTight "id" ∧
    getQueryPart "id" ≠ specQueryPartSpaced "id" := by
  constructor
  · decide
  · decide

/-- C7 (amended): for every attribute body (hence for every result type
using the default implementation, at every params and prefix), the
rendered selection set wraps the body in braces together with the fixed
delimiters `"{ #get_query_part"` plus newline and two-space indent
before it, and newline plus `"} #/get_query_part"` plus newline after
it. -/
theorem getQueryPart_spec (attrs : String) :
    getQueryPart attrs = ("\x7b #get_query_part\n  " ++ attrs) ++ "\n\x7d #/get_query_part\n" :=
  rfl

end SparkoGraphQL
